import Mathlib

/-!
Shallow embedding of the lagom TD3 baseline (`baselines/ddpg_td3/td3_agent.py`)
and the episode runner (`lagom/runner/episode_runner.py`).

Tensors are modelled as `List α` over a linear ordered field `α` (instantiated
at `ℝ` where the hyperbolic tangent matters, at `ℚ` for executable witnesses);
batches of tensors as `List (List α)`.  Randomness (exploration noise, target
smoothing noise, replay sampling) is passed in as explicit data.  The autograd
and optimizer internals of the tensor library are opaque update functions; the
control flow, clipping arithmetic and Polyak arithmetic are translated from the
source.
-/

namespace Lagom

section Vec

variable {α : Type} [LinearOrderedField α]

/-- Elementwise sum of two equally-shaped tensors (`x + eps` in the source). -/
def vAdd (x y : List α) : List α := List.zipWith (fun a b => a + b) x y

/-- Embeds `np.clip(v, low, high)` with array bounds: elementwise `min (max v_i low_i) high_i`. -/
def clipVec (v lo hi : List α) : List α :=
  List.zipWith (fun a b => min a b) (List.zipWith (fun a b => max a b) v lo) hi

/-- Embeds `torch.clamp(v, lo, hi)` with scalar bounds. -/
def clampVec (v : List α) (lo hi : α) : List α :=
  v.map (fun a => min (max a lo) hi)

/-- Embeds `F.relu`, elementwise. -/
def reluVec (v : List α) : List α := v.map (fun a => max a 0)

/-- Dot product of a weight row with the input. -/
def dot (w x : List α) : α := (List.zipWith (fun a b => a * b) w x).sum

/-- One `nn.Linear` layer: a weight matrix (list of rows) and a bias vector. -/
structure LinearLayer (α : Type) where
  weight : List (List α)
  bias : List α

/-- Forward pass of a linear layer: `W x + b`. -/
def LinearLayer.forward (l : LinearLayer α) (x : List α) : List α :=
  List.zipWith (fun row b => dot row x + b) l.weight l.bias

/-- Parameters of the `Actor` network: the `make_fc` feature layers, the
`action_head` linear layer, and the `max_action` bound taken from the action
space. -/
structure ActorParams (α : Type) where
  feature_layers : List (LinearLayer α)
  action_head : LinearLayer α
  max_action : α

/-- Embeds `Actor.forward`: relu feature layers, then
`max_action * torch.tanh(action_head(x))`.  The hyperbolic tangent of the
tensor library is passed as the function `th`. -/
def actorForward (th : α → α) (p : ActorParams α) (x : List α) : List α :=
  let h := p.feature_layers.foldl (fun v l => reluVec (l.forward v)) x
  (p.action_head.forward h).map (fun a => p.max_action * th a)

/-- Parameters of the twin `Critic` network: two independent stacks. -/
structure CriticParams (α : Type) where
  first_feature_layers : List (LinearLayer α)
  first_Q_head : LinearLayer α
  second_feature_layers : List (LinearLayer α)
  second_Q_head : LinearLayer α

/-- Embeds `Critic.Q1`: concatenate observation and action, relu feature stack, head. -/
def criticQ1 (p : CriticParams α) (x action : List α) : List α :=
  let z := p.first_feature_layers.foldl (fun v l => reluVec (l.forward v)) (x ++ action)
  p.first_Q_head.forward z

/-- Embeds `Critic.Q2`: the second stack. -/
def criticQ2 (p : CriticParams α) (x action : List α) : List α :=
  let z := p.second_feature_layers.foldl (fun v l => reluVec (l.forward v)) (x ++ action)
  p.second_Q_head.forward z

end Vec

section ActorInit

variable {α : Type} [LinearOrderedField α] [DecidableEq α]

/-- The two assertions and the `max_action` assignment of `Actor.__init__`:
`assert np.unique(high).size == 1`,
`assert -np.unique(low).item() == np.unique(high).item()` (the `.item()` call
itself aborts when `low` is not uniform), then `max_action = high[0]`.
`np.unique l` has size `l.dedup.length`; when it is a singleton, `.item()` is
the common value.  Returns `none` when construction aborts. -/
def actorMaxAction (low high : List α) : Option α :=
  if high.dedup.length = 1 then
    if low.dedup.length = 1 then
      if -low.headD 0 = high.headD 0 then some (high.headD 0) else none
    else none
  else none

end ActorInit

section ChooseLearn

variable {α : Type} [LinearOrderedField α] [DecidableEq α]

/-- Embeds `Agent.choose_action`: run the actor forward pass; in `train` mode add the
exploration noise `eps` and `np.clip` to the action-space bounds; return the
result in a dict under key `raw_action`.  The noise draw is passed in as
`eps`. -/
def chooseAction (th : α → α) (p : ActorParams α) (low high : List α)
    (mode : String) (eps : List α) (obs : List α) : List (String × List α) :=
  let action := actorForward th p obs
  let action := if mode = "train" then clipVec (vAdd action eps) low high else action
  [("raw_action", action)]

/-- The next-action computation inside `Agent.learn`'s no-grad block:
`next_actions = actor_target(next_observations)`;
`eps = noise.clamp(-target_noise_clip, target_noise_clip)`;
`next_actions = torch.clamp(next_actions + eps, -max_action, max_action)`.
The raw Gaussian draws are passed in as `eps`, one vector per sample. -/
def learnNextActions (th : α → α) (pt : ActorParams α)
    (target_noise_clip max_action : α)
    (next_obs eps : List (List α)) : List (List α) :=
  let na := next_obs.map (actorForward th pt)
  let ec := eps.map (fun v => clampVec v (-target_noise_clip) target_noise_clip)
  (List.zipWith vAdd na ec).map (fun v => clampVec v (-max_action) max_action)

/-- The regression-target computation of `Agent.learn` (source order):
`next_Qs1, next_Qs2 = critic_target(next_observations, next_actions)`;
`next_Qs = torch.min(next_Qs1, next_Qs2)`;
`targets = rewards + gamma * masks * next_Qs`. -/
def learnTargets (th : α → α) (pt : ActorParams α) (ct : CriticParams α)
    (gamma target_noise_clip max_action : α)
    (next_obs eps rewards masks : List (List α)) : List (List α) :=
  let next_actions := learnNextActions th pt target_noise_clip max_action next_obs eps
  let nQ1 := List.zipWith (criticQ1 ct) next_obs next_actions
  let nQ2 := List.zipWith (criticQ2 ct) next_obs next_actions
  let nQ := List.zipWith (fun q1 q2 => List.zipWith (fun a b => min a b) q1 q2) nQ1 nQ2
  List.zipWith (fun r gq => List.zipWith (fun a b => a + b) r gq) rewards
    (List.zipWith (fun m q => List.zipWith (fun a b => gamma * a * b) m q) masks nQ)

/-- The spec's description of the target for one sampled transition: run the
target Actor on the next-observation, add the clipped smoothing noise, clip the
next-action to `[-max_action, max_action]`, evaluate the target twin Critic,
take the elementwise minimum, and form `reward + gamma * mask * min_target_Q`. -/
def specTargetSample (th : α → α) (pt : ActorParams α) (ct : CriticParams α)
    (gamma target_noise_clip max_action : α)
    (ob e r m : List α) : List α :=
  let a := clampVec (vAdd (actorForward th pt ob)
      (clampVec e (-target_noise_clip) target_noise_clip)) (-max_action) max_action
  let mq := List.zipWith (fun x y => min x y) (criticQ1 ct ob a) (criticQ2 ct ob a)
  List.zipWith (fun x y => x + y) r (List.zipWith (fun x y => gamma * x * y) m mq)

/-- The spec's target computation applied to each sampled transition of the
batch in turn. -/
def specTargets (th : α → α) (pt : ActorParams α) (ct : CriticParams α)
    (gamma target_noise_clip max_action : α) :
    List (List α) → List (List α) → List (List α) → List (List α) → List (List α)
  | ob :: obs, e :: es, r :: rs, m :: ms =>
      specTargetSample th pt ct gamma target_noise_clip max_action ob e r m ::
        specTargets th pt ct gamma target_noise_clip max_action obs es rs ms
  | _, _, _, _ => []

end ChooseLearn

section AgentState

variable {α : Type} [LinearOrderedField α]

/-- The mutable state of `Agent`: the online actor and critic parameter
vectors, their target copies, and the `total_timestep` buffer.  Each network's
parameters are flattened into one list. -/
structure AgentParams (α : Type) where
  actor : List α
  actor_target : List α
  critic : List α
  critic_target : List α
  total_timestep : ℤ

/-- One zipped pass of `polyak_update_target`'s inner loop:
`target_param.data.copy_(p * target_param.data + (1 - p) * param.data)`. -/
def polyakVec (p : α) (target source : List α) : List α :=
  List.zipWith (fun t s => p * t + (1 - p) * s) target source

/-- Embeds `Agent.polyak_update_target`: Polyak-average both the actor target and the
critic target toward the online networks. -/
def polyakUpdateTarget (p : α) (ps : AgentParams α) : AgentParams α :=
  { ps with
    actor_target := polyakVec p ps.actor_target ps.actor
    critic_target := polyakVec p ps.critic_target ps.critic }

/-- The external tensor-library operations used by one `learn` iteration:
loss values (autograd scalars) and the optimizer steps of the two Adam
optimizers, which were constructed over `self.critic.parameters()` and
`self.actor.parameters()` respectively and hence map only the online
parameters to their updated values.  Each is indexed by the iteration number
to account for the freshly sampled replay batch. -/
structure LearnOps (α : Type) where
  criticLossVal : ℕ → AgentParams α → α
  criticStep : ℕ → AgentParams α → List α
  actorLossVal : ℕ → AgentParams α → α
  actorStep : ℕ → AgentParams α → List α

/-- The per-call bookkeeping of `Agent.learn`: the parameter state plus
`list_actor_loss`, `list_critic_loss`, and a count of the
`polyak_update_target` invocations. -/
structure LearnState (α : Type) where
  params : AgentParams α
  list_actor_loss : List α
  list_critic_loss : List α
  target_update_calls : ℕ

/-- One inner iteration `i` of the loop in `Agent.learn`: compute the critic
loss, step the critic optimizer; if `i % policy_delay == 0`, compute the actor
loss (against the already-updated critic), step the actor optimizer, call
`polyak_update_target`, and append the actor loss; finally append the critic
loss. -/
def learnIter (policy_delay : ℕ) (polyak : α) (ops : LearnOps α)
    (i : ℕ) (st : LearnState α) : LearnState α :=
  let p0 := st.params
  let closs := ops.criticLossVal i p0
  let p1 := { p0 with critic := ops.criticStep i p0 }
  let st1 :=
    if i % policy_delay = 0 then
      let aloss := ops.actorLossVal i p1
      let p2 := { p1 with actor := ops.actorStep i p1 }
      { params := polyakUpdateTarget polyak p2
        list_actor_loss := st.list_actor_loss ++ [aloss]
        list_critic_loss := st.list_critic_loss
        target_update_calls := st.target_update_calls + 1 }
    else { st with params := p1 }
  { st1 with list_critic_loss := st1.list_critic_loss ++ [closs] }

/-- Embeds `Agent.learn`: `for i in range(T)` over `learnIter`, then
`self.total_timestep += T`. -/
def learn (policy_delay : ℕ) (polyak : α) (ops : LearnOps α)
    (T : ℕ) (st : LearnState α) : LearnState α :=
  let st2 := (List.range T).foldl (fun s i => learnIter policy_delay polyak ops i s) st
  { st2 with params := { st2.params with total_timestep := st2.params.total_timestep + T } }

/-- Embeds `module.load_state_dict(other.state_dict())`: every parameter of the
destination is overwritten with the source's value. -/
def loadStateDict (_dst src : List α) : List α := src

/-- Embeds `Agent.__init__`: construct the online networks and freshly initialized
target networks (initial parameter draws are passed in), overwrite each target
via `load_state_dict` from the online network's `state_dict`, and start the
`total_timestep` buffer at `torch.tensor(0)`. -/
def agentInit (actor0 actorTarget0 critic0 criticTarget0 : List α) : AgentParams α :=
  { actor := actor0
    actor_target := loadStateDict actorTarget0 actor0
    critic := critic0
    critic_target := loadStateDict criticTarget0 critic0
    total_timestep := 0 }

end AgentState

section Runner

variable {Obs Act R Info : Type}

/-- Modelled from the spec: `lagom.history.BatchEpisode` is not under `src/`.
The trajectory container holds the ordered sequences of observations, actions,
rewards, done-flags, per-step environment info and per-step agent batch-info,
plus one completion flag per parallel environment instance (all initially
false); `set_completed(n)` marks instance `n` completed. -/
structure BatchEpisode (Obs Act R Info : Type) where
  observations : List Obs
  actions : List Act
  rewards : List R
  dones : List (List Bool)
  infos : List Info
  batch_infos : List (List (String × Act))
  completes : List Bool

/-- A Gym-style vectorized environment collaborator: `reset` yields the start
state and initial observation batch, `step` consumes an action and yields the
next state, observation batch, reward batch, done-flag batch and info. -/
structure EnvModel (σ Obs Act R Info : Type) where
  reset : σ × Obs
  step : σ → Act → σ × Obs × R × List Bool × Info

/-- The body of `EpisodeRunner.__call__`'s `for t in range(T)` loop:
`out_agent = agent.choose_action(obs)`; `action = out_agent.pop('action')`
(`none` when the key is absent, aborting the rollout with a `KeyError`);
`D.add_action`; `env.step`; append observation, reward, done, info; mark done
instances completed; `D.add_batch_info(out_agent)`; break once
`all(D.completes)`. -/
def episodeRunnerGo (env : EnvModel σ Obs Act R Info)
    (agent : Obs → List (String × Act)) :
    ℕ → σ → Obs → BatchEpisode Obs Act R Info → Option (BatchEpisode Obs Act R Info)
  | 0, _, _, D => some D
  | t + 1, s, obs, D =>
    let out_agent := agent obs
    match out_agent.lookup "action" with
    | none => none
    | some action =>
      let rest := out_agent.eraseP (fun kv => kv.1 == "action")
      let D1 := { D with actions := D.actions ++ [action] }
      match env.step s action with
      | (s2, obs2, r, done, info) =>
        let D2 := { D1 with
          observations := D1.observations ++ [obs2]
          rewards := D1.rewards ++ [r]
          dones := D1.dones ++ [done]
          infos := D1.infos ++ [info]
          batch_infos := D1.batch_infos ++ [rest]
          completes := List.zipWith (fun c d => c || d) D1.completes done }
        if D2.completes.all (fun b => b) then some D2
        else episodeRunnerGo env agent t s2 obs2 D2

/-- Embeds `EpisodeRunner.__call__`: create the trajectory container for `n` parallel
environment instances, reset the environment, record the initial observation,
then run the loop with step budget `T`. -/
def episodeRunner (env : EnvModel σ Obs Act R Info)
    (agent : Obs → List (String × Act)) (T n : ℕ) :
    Option (BatchEpisode Obs Act R Info) :=
  let r := env.reset
  episodeRunnerGo env agent T r.1 r.2
    { observations := [r.2], actions := [], rewards := [], dones := [],
      infos := [], batch_infos := [], completes := List.replicate n false }

/-- An environment whose done-flags follow a fixed per-step script and whose
state and observation are the running step count. -/
def scriptedEnv (script : ℕ → List Bool) : EnvModel ℕ ℕ ℕ ℤ Unit :=
  { reset := (0, 0)
    step := fun t _ => (t + 1, t + 1, 0, script t, ()) }

/-- An agent collaborator that answers with its action under the key
`action`, as `EpisodeRunner` expects. -/
def keyedAgent (f : Obs → Act) : Obs → List (String × Act) :=
  fun o => [("action", f o)]

/-- A deterministic single-instance-style environment whose state is its
observation, built from a step function. -/
def funEnv (o0 : Obs) (stepF : Obs → Act → Obs × R × List Bool) :
    EnvModel Obs Obs Act R Unit :=
  { reset := (o0, o0)
    step := fun s a =>
      let r := stepF s a
      (r.1, r.1, r.2.1, r.2.2, ()) }

/-- The completion flags accumulated from start flags `c` after executing loop
iterations `τ, τ+1, …, τ+i` against a done-flag script. -/
def accCompletes (script : ℕ → List Bool) (c : List Bool) (τ : ℕ) : ℕ → List Bool
  | 0 => List.zipWith (fun a b => a || b) c (script τ)
  | i + 1 =>
      List.zipWith (fun a b => a || b) (accCompletes script c τ i) (script (τ + i + 1))

/-- The effect of one loop iteration of the runner on the trajectory when it
is driven by `scriptedEnv script` and `keyedAgent f` at loop time `τ` with
current observation `o` (used to state unfolding lemmas about the loop). -/
def scriptedStepD (script : ℕ → List Bool) (f : ℕ → ℕ) (τ o : ℕ)
    (D : BatchEpisode ℕ ℕ ℤ Unit) : BatchEpisode ℕ ℕ ℤ Unit :=
  { observations := D.observations ++ [τ + 1]
    actions := D.actions ++ [f o]
    rewards := D.rewards ++ [0]
    dones := D.dones ++ [script τ]
    infos := D.infos ++ [()]
    batch_infos := D.batch_infos ++ [[]]
    completes := List.zipWith (fun c d => c || d) D.completes (script τ) }

/-- The effect of one loop iteration of the runner on the trajectory when it
is driven by `funEnv o0 stepF` and `keyedAgent f` at current observation `o`. -/
def funStepD {Obs Act R : Type} (stepF : Obs → Act → Obs × R × List Bool)
    (f : Obs → Act) (o : Obs) (D : BatchEpisode Obs Act R Unit) :
    BatchEpisode Obs Act R Unit :=
  { observations := D.observations ++ [(stepF o (f o)).1]
    actions := D.actions ++ [f o]
    rewards := D.rewards ++ [(stepF o (f o)).2.1]
    dones := D.dones ++ [(stepF o (f o)).2.2]
    infos := D.infos ++ [()]
    batch_infos := D.batch_infos ++ [[]]
    completes := List.zipWith (fun c d => c || d) D.completes (stepF o (f o)).2.2 }

end Runner

section ConcreteInstances

/-- Trivial optimizer bundle over `ℚ` used to instantiate theorems. -/
def trivialOpsQ : LearnOps ℚ :=
  { criticLossVal := fun _ _ => 0
    criticStep := fun _ s => s.critic
    actorLossVal := fun _ _ => 0
    actorStep := fun _ s => s.actor }

/-- A small concrete learn state over `ℚ`. -/
def stQ : LearnState ℚ :=
  { params := { actor := [1], actor_target := [1], critic := [2], critic_target := [2],
                total_timestep := 0 }
    list_actor_loss := []
    list_critic_loss := []
    target_update_calls := 0 }

/-- A small concrete agent-parameter state over `ℚ`. -/
def psQ : AgentParams ℚ :=
  { actor := [1, 2], actor_target := [3, 4], critic := [5], critic_target := [6],
    total_timestep := 0 }

/-- A tiny concrete actor over `ℝ` with `max_action = 2`. -/
def actorPc : ActorParams ℝ :=
  { feature_layers := [], action_head := { weight := [[1]], bias := [0] }, max_action := 2 }

/-- Done-flag script of a single environment instance that reports done on the
third step (iteration index 2). -/
def doneAt3 : ℕ → List Bool := fun t => [decide (2 ≤ t)]

/-- A concrete never-done deterministic step function. -/
def stepFc : ℕ → ℕ → ℕ × ℤ × List Bool := fun s _ => (s + 1, 0, [false])

/-- The trajectory produced by two steps of `funEnv 0 stepFc` under the
identity-keyed agent. -/
def Dc7 : BatchEpisode ℕ ℕ ℤ Unit :=
  { observations := [0, 1, 2], actions := [0, 1], rewards := [0, 0],
    dones := [[false], [false]], infos := [(), ()], batch_infos := [[], []],
    completes := [false] }

/-- A concrete environment over `List ℝ` observations and actions. -/
def cEnvR : EnvModel Unit (List ℝ) (List ℝ) ℝ Unit :=
  { reset := ((), [])
    step := fun _ _ => ((), [], 0, [false], ()) }

end ConcreteInstances

/-! ## Helper lemmas -/

section Helpers

variable {α : Type} [LinearOrderedField α]

lemma learnIter_total_timestep (pd : ℕ) (p : α) (ops : LearnOps α) (i : ℕ)
    (st : LearnState α) :
    (learnIter pd p ops i st).params.total_timestep = st.params.total_timestep := by
  by_cases h : i % pd = 0 <;> simp [learnIter, polyakUpdateTarget, h]

lemma learn_foldl_total_timestep (pd : ℕ) (p : α) (ops : LearnOps α) :
    ∀ (l : List ℕ) (st : LearnState α),
      ((l.foldl (fun s i => learnIter pd p ops i s) st).params.total_timestep
        = st.params.total_timestep)
  | [], st => rfl
  | i :: l, st => by
      rw [List.foldl_cons, learn_foldl_total_timestep pd p ops l,
        learnIter_total_timestep]

lemma learnIter_counts (pd : ℕ) (p : α) (ops : LearnOps α) (i : ℕ) (st : LearnState α) :
    (learnIter pd p ops i st).list_critic_loss.length = st.list_critic_loss.length + 1 ∧
    (learnIter pd p ops i st).list_actor_loss.length
      = st.list_actor_loss.length + (if i % pd = 0 then 1 else 0) ∧
    (learnIter pd p ops i st).target_update_calls
      = st.target_update_calls + (if i % pd = 0 then 1 else 0) := by
  by_cases h : i % pd = 0 <;> simp [learnIter, polyakUpdateTarget, h]

lemma learn_foldl_counts (pd : ℕ) (p : α) (ops : LearnOps α) :
    ∀ (l : List ℕ) (st : LearnState α),
      ((l.foldl (fun s i => learnIter pd p ops i s) st).list_critic_loss.length
          = st.list_critic_loss.length + l.length) ∧
      ((l.foldl (fun s i => learnIter pd p ops i s) st).list_actor_loss.length
          = st.list_actor_loss.length + (l.filter (fun i => i % pd = 0)).length) ∧
      ((l.foldl (fun s i => learnIter pd p ops i s) st).target_update_calls
          = st.target_update_calls + (l.filter (fun i => i % pd = 0)).length)
  | [], st => by simp
  | i :: l, st => by
      obtain ⟨hc, ha, ht⟩ := learn_foldl_counts pd p ops l (learnIter pd p ops i st)
      obtain ⟨hc0, ha0, ht0⟩ := learnIter_counts pd p ops i st
      refine ⟨?_, ?_, ?_⟩ <;>
        by_cases h : i % pd = 0 <;>
          simp [List.foldl_cons, hc, ha, ht, hc0, ha0, ht0, h, List.filter_cons] <;> omega

lemma polyakVec_getD (p : α) :
    ∀ (t s : List α) (i : ℕ), i < (polyakVec p t s).length →
      (polyakVec p t s).getD i 0 = p * t.getD i 0 + (1 - p) * s.getD i 0
  | [], s, i, h => by simp [polyakVec] at h
  | a :: t, [], i, h => by simp [polyakVec] at h
  | a :: t, b :: s, 0, h => by simp [polyakVec]
  | a :: t, b :: s, i + 1, h => by
      have := polyakVec_getD p t s i (by simpa [polyakVec] using h)
      simpa [polyakVec] using this

lemma polyakVec_one :
    ∀ (t s : List α), t.length = s.length → polyakVec (1 : α) t s = t
  | [], [], _ => rfl
  | [], _ :: _, h => by simp at h
  | _ :: _, [], h => by simp at h
  | a :: t, b :: s, h => by
      have := polyakVec_one t s (by simpa using h)
      simp [polyakVec] at this ⊢
      exact this

lemma polyakVec_zero :
    ∀ (t s : List α), t.length = s.length → polyakVec (0 : α) t s = s
  | [], [], _ => rfl
  | [], _ :: _, h => by simp at h
  | _ :: _, [], h => by simp at h
  | a :: t, b :: s, h => by
      have := polyakVec_zero t s (by simpa using h)
      simp [polyakVec] at this ⊢
      exact this

lemma headD_mem {l : List α} (h : l ≠ []) : l.headD 0 ∈ l := by
  cases l with
  | nil => exact absurd rfl h
  | cons a t => exact List.mem_cons_self a t

lemma dedup_eq_singleton_of_all [DecidableEq α] :
    ∀ (l : List α) (c : α), l ≠ [] → (∀ a ∈ l, a = c) → l.dedup = [c]
  | [], _, h, _ => absurd rfl h
  | [x], c, _, hall => by simp [hall x (by simp)]
  | x :: y :: xs, c, _, hall => by
      have hx : x = c := hall x (by simp)
      have hy : y = c := hall y (by simp)
      have hmem : x ∈ y :: xs := by
        rw [hx, ← hy]
        exact List.mem_cons_self y xs
      rw [List.dedup_cons_of_mem hmem]
      exact dedup_eq_singleton_of_all (y :: xs) c (by simp)
        (fun a ha => hall a (List.mem_cons_of_mem x ha))

lemma dedup_length_one_iff [DecidableEq α] {l : List α} (h : l ≠ []) :
    l.dedup.length = 1 ↔ ∀ a ∈ l, a = l.headD 0 := by
  constructor
  · intro h1 a ha
    obtain ⟨b, hb⟩ := List.length_eq_one.mp h1
    have hmem : ∀ x ∈ l, x = b := by
      intro x hx
      have hxd : x ∈ l.dedup := List.mem_dedup.mpr hx
      rw [hb] at hxd
      simpa using hxd
    rw [hmem a ha, hmem _ (headD_mem h)]
  · intro hall
    rw [dedup_eq_singleton_of_all l (l.headD 0) h hall]
    rfl

lemma learnTargets_cons (th : α → α) (pt : ActorParams α) (ct : CriticParams α)
    (gamma c ma : α) (ob e r m : List α)
    (obs es rs ms : List (List α)) :
    learnTargets th pt ct gamma c ma (ob :: obs) (e :: es) (r :: rs) (m :: ms)
      = specTargetSample th pt ct gamma c ma ob e r m
        :: learnTargets th pt ct gamma c ma obs es rs ms := rfl

lemma clamp_bounds {lo hi x : α} (h : lo ≤ hi) :
    lo ≤ min (max x lo) hi ∧ min (max x lo) hi ≤ hi :=
  ⟨le_min (le_max_right x lo) h, min_le_right _ _⟩

lemma clampVec_mem_bounds {ma : α} (hnm : -ma ≤ ma) (v : List α) :
    ∀ a ∈ clampVec v (-ma) ma, -ma ≤ a ∧ a ≤ ma := by
  intro a ha
  obtain ⟨x, hx, rfl⟩ := List.mem_map.mp ha
  exact clamp_bounds hnm

lemma clipVec_mem_bounds {ma : α} (hnm : -ma ≤ ma) :
    ∀ (v lo hi : List α), (∀ b ∈ lo, b = -ma) → (∀ b ∈ hi, b = ma) →
      ∀ a ∈ clipVec v lo hi, -ma ≤ a ∧ a ≤ ma
  | [], _, _, _, _, a, ha => by simp [clipVec] at ha
  | _ :: _, [], _, _, _, a, ha => by simp [clipVec] at ha
  | _ :: _, _ :: _, [], _, _, a, ha => by simp [clipVec] at ha
  | x :: v, l :: lo, hb :: hi, hl, hh, a, ha => by
      simp only [clipVec, List.zipWith_cons_cons] at ha
      rcases List.mem_cons.mp ha with h | h
      · subst h
        rw [hl l (by simp), hh hb (by simp)]
        exact clamp_bounds hnm
      · exact clipVec_mem_bounds hnm v lo hi
          (fun b hb2 => hl b (List.mem_cons_of_mem _ hb2))
          (fun b hb2 => hh b (List.mem_cons_of_mem _ hb2)) a h

end Helpers

section HelpersReal

lemma tanh_le_one (x : ℝ) : Real.tanh x ≤ 1 := by
  rw [Real.tanh_eq_sinh_div_cosh, div_le_one (Real.cosh_pos x)]
  exact (Real.sinh_lt_cosh x).le

lemma neg_one_le_tanh (x : ℝ) : -1 ≤ Real.tanh x := by
  rw [Real.tanh_eq_sinh_div_cosh, le_div_iff (Real.cosh_pos x)]
  have h1 := Real.cosh_add_sinh x
  have h2 := (Real.exp_pos x).le
  linarith

lemma mul_tanh_bounds {ma : ℝ} (hma : 0 ≤ ma) (v : ℝ) :
    -ma ≤ ma * Real.tanh v ∧ ma * Real.tanh v ≤ ma := by
  have h1 := tanh_le_one v
  have h2 := neg_one_le_tanh v
  constructor <;> nlinarith

lemma actorForward_mem_bounds {p : ActorParams ℝ} (hma : 0 ≤ p.max_action)
    (obs : List ℝ) :
    ∀ a ∈ actorForward Real.tanh p obs,
      -p.max_action ≤ a ∧ a ≤ p.max_action := by
  intro a ha
  simp only [actorForward, List.mem_map] at ha
  obtain ⟨x, hx, rfl⟩ := ha
  exact mul_tanh_bounds hma x

end HelpersReal

section HelpersRunner

variable {Obs Act R2 : Type}

lemma head?_append_of_ne_nil {β : Type} (l l2 : List β) (h : l ≠ []) :
    (l ++ l2).head? = l.head? := by
  cases l with
  | nil => exact absurd rfl h
  | cons a t => rfl

lemma go_scripted_step (script : ℕ → List Bool) (f : ℕ → ℕ) (m τ o : ℕ)
    (D : BatchEpisode ℕ ℕ ℤ Unit) :
    episodeRunnerGo (scriptedEnv script) (keyedAgent f) (m + 1) τ o D =
      if (scriptedStepD script f τ o D).completes.all (fun b => b) then
        some (scriptedStepD script f τ o D)
      else
        episodeRunnerGo (scriptedEnv script) (keyedAgent f) m (τ + 1) (τ + 1)
          (scriptedStepD script f τ o D) := rfl

lemma go_funEnv_step (o0 : Obs) (stepF : Obs → Act → Obs × R2 × List Bool)
    (f : Obs → Act) (m : ℕ) (o : Obs) (D : BatchEpisode Obs Act R2 Unit) :
    episodeRunnerGo (funEnv o0 stepF) (keyedAgent f) (m + 1) o o D =
      if (funStepD stepF f o D).completes.all (fun b => b) then
        some (funStepD stepF f o D)
      else
        episodeRunnerGo (funEnv o0 stepF) (keyedAgent f) m (stepF o (f o)).1
          (stepF o (f o)).1 (funStepD stepF f o D) := rfl

lemma accCompletes_shift (script : ℕ → List Bool) (c : List Bool) (τ : ℕ) :
    ∀ i, accCompletes script c τ (i + 1)
      = accCompletes script (List.zipWith (fun a b => a || b) c (script τ)) (τ + 1) i
  | 0 => by simp [accCompletes]
  | i + 1 => by
      have h := accCompletes_shift script c τ i
      have harg : τ + (i + 1) + 1 = τ + 1 + i + 1 := by omega
      show List.zipWith (fun a b => a || b) (accCompletes script c τ (i + 1))
            (script (τ + (i + 1) + 1))
          = List.zipWith (fun a b => a || b)
            (accCompletes script (List.zipWith (fun a b => a || b) c (script τ)) (τ + 1) i)
            (script (τ + 1 + i + 1))
      rw [h, harg]

lemma go_scripted_full (script : ℕ → List Bool) (f : ℕ → ℕ) :
    ∀ (fuel τ o : ℕ) (D : BatchEpisode ℕ ℕ ℤ Unit),
      (∀ i, i < fuel → ¬((accCompletes script D.completes τ i).all (fun b => b) = true)) →
      ∃ D2, episodeRunnerGo (scriptedEnv script) (keyedAgent f) fuel τ o D = some D2 ∧
        D2.actions.length = D.actions.length + fuel
  | 0, τ, o, D, _ => ⟨D, rfl, by simp⟩
  | m + 1, τ, o, D, h => by
      rw [go_scripted_step]
      have h0 : ¬((scriptedStepD script f τ o D).completes.all (fun b => b) = true) := by
        have := h 0 (Nat.succ_pos m)
        simpa [scriptedStepD, accCompletes] using this
      rw [if_neg h0]
      obtain ⟨D2, hgo, hlen⟩ := go_scripted_full script f m (τ + 1) (τ + 1)
        (scriptedStepD script f τ o D)
        (by
          intro i hi
          have h2 := h (i + 1) (by omega)
          rw [accCompletes_shift] at h2
          simpa [scriptedStepD] using h2)
      refine ⟨D2, hgo, ?_⟩
      simp only [scriptedStepD, List.length_append, List.length_singleton] at hlen
      omega

lemma go_scripted_stop (script : ℕ → List Bool) (f : ℕ → ℕ) :
    ∀ (k fuel τ o : ℕ) (D : BatchEpisode ℕ ℕ ℤ Unit), k < fuel →
      (∀ i, i < k → ¬((accCompletes script D.completes τ i).all (fun b => b) = true)) →
      ((accCompletes script D.completes τ k).all (fun b => b) = true) →
      ∃ D2, episodeRunnerGo (scriptedEnv script) (keyedAgent f) fuel τ o D = some D2 ∧
        D2.actions.length = D.actions.length + (k + 1)
  | 0, fuel, τ, o, D, hk, _, hall => by
      obtain ⟨m, rfl⟩ : ∃ m, fuel = m + 1 := ⟨fuel - 1, by omega⟩
      rw [go_scripted_step]
      have h0 : (scriptedStepD script f τ o D).completes.all (fun b => b) = true := by
        simpa [scriptedStepD, accCompletes] using hall
      rw [if_pos h0]
      exact ⟨_, rfl, by simp [scriptedStepD]⟩
  | k + 1, fuel, τ, o, D, hk, hlt, hall => by
      obtain ⟨m, rfl⟩ : ∃ m, fuel = m + 1 := ⟨fuel - 1, by omega⟩
      rw [go_scripted_step]
      have h0 : ¬((scriptedStepD script f τ o D).completes.all (fun b => b) = true) := by
        have := hlt 0 (by omega)
        simpa [scriptedStepD, accCompletes] using this
      rw [if_neg h0]
      obtain ⟨D2, hgo, hlen⟩ := go_scripted_stop script f k m (τ + 1) (τ + 1)
        (scriptedStepD script f τ o D) (by omega)
        (by
          intro i hi
          have h2 := hlt (i + 1) (by omega)
          rw [accCompletes_shift] at h2
          simpa [scriptedStepD] using h2)
        (by
          have h2 := hall
          rw [accCompletes_shift] at h2
          simpa [scriptedStepD] using h2)
      refine ⟨D2, hgo, ?_⟩
      simp only [scriptedStepD, List.length_append, List.length_singleton] at hlen
      omega

lemma go_funEnv_inv (o0 : Obs) (stepF : Obs → Act → Obs × R2 × List Bool)
    (f : Obs → Act) :
    ∀ (fuel : ℕ) (o : Obs) (D : BatchEpisode Obs Act R2 Unit) (os : List Obs),
      D.observations = os ++ [o] → D.actions = os.map f →
      List.Chain' (fun a b => b = (stepF a (f a)).1) D.observations →
      ∀ D2, episodeRunnerGo (funEnv o0 stepF) (keyedAgent f) fuel o o D = some D2 →
        D2.actions = D2.observations.dropLast.map f ∧
        List.Chain' (fun a b => b = (stepF a (f a)).1) D2.observations ∧
        D2.observations.head? = D.observations.head? := by
  intro fuel
  induction fuel with
  | zero =>
      intro o D os hobs hact hch D2 hD2
      obtain rfl : D = D2 := Option.some.inj hD2
      refine ⟨?_, hch, rfl⟩
      rw [hobs, hact, List.dropLast_concat]
  | succ m ih =>
      intro o D os hobs hact hch D2 hD2
      rw [go_funEnv_step] at hD2
      have hEobs : (funStepD stepF f o D).observations
          = (os ++ [o]) ++ [(stepF o (f o)).1] := by
        simp [funStepD, hobs]
      have hEact : (funStepD stepF f o D).actions = (os ++ [o]).map f := by
        simp [funStepD, hact]
      have hEch : List.Chain' (fun a b => b = (stepF a (f a)).1)
          (funStepD stepF f o D).observations := by
        rw [hEobs]
        refine List.chain'_append.mpr ⟨by rw [← hobs]; exact hch, List.chain'_singleton _, ?_⟩
        intro x hx y hy
        rw [List.getLast?_concat] at hx
        simp only [List.head?_cons, Option.mem_some_iff] at hx hy
        rw [← hx, ← hy]
      have hEhead : (funStepD stepF f o D).observations.head?
          = D.observations.head? := by
        have hne : D.observations ≠ [] := by
          rw [hobs]
          simp
        calc (funStepD stepF f o D).observations.head?
            = (D.observations ++ [(stepF o (f o)).1]).head? := rfl
          _ = D.observations.head? := head?_append_of_ne_nil _ _ hne
      by_cases hx : (funStepD stepF f o D).completes.all (fun b => b) = true
      · rw [if_pos hx] at hD2
        obtain rfl : funStepD stepF f o D = D2 := Option.some.inj hD2
        refine ⟨?_, hEch, hEhead⟩
        rw [hEobs, hEact, List.dropLast_concat]
      · rw [if_neg hx] at hD2
        obtain ⟨h1, h2, h3⟩ := ih (stepF o (f o)).1 (funStepD stepF f o D)
          (os ++ [o]) hEobs hEact hEch D2 hD2
        exact ⟨h1, h2, h3.trans hEhead⟩

end HelpersRunner

/-! ## Claim theorems -/

section Claims

variable {α : Type} [LinearOrderedField α]

/-- Claim C8: after one call of `Agent.learn` with iteration count `T ≥ 1`, the
agent's `total_timestep` counter is exactly `T` larger than before the call,
and it never decreases. -/
theorem C8_total_timestep_increments (pd : ℕ) (p : α) (ops : LearnOps α) (T : ℕ)
    (st : LearnState α) (hT : 1 ≤ T) :
    (learn pd p ops T st).params.total_timestep = st.params.total_timestep + T ∧
    st.params.total_timestep ≤ (learn pd p ops T st).params.total_timestep := by
  have h : (learn pd p ops T st).params.total_timestep = st.params.total_timestep + T := by
    simp [learn, learn_foldl_total_timestep]
  exact ⟨h, by rw [h]; omega⟩

theorem C8_witness :
    1 ≤ 1 ∧
    ((learn 1 (1 : ℚ) trivialOpsQ 1 stQ).params.total_timestep
        = stQ.params.total_timestep + 1 ∧
      stQ.params.total_timestep ≤ (learn 1 (1 : ℚ) trivialOpsQ 1 stQ).params.total_timestep) :=
  ⟨by decide, C8_total_timestep_increments 1 1 trivialOpsQ 1 stQ (by decide)⟩

/-- Claim C10: immediately after `Agent.__init__`, the target actor's
parameters equal the online actor's parameters and the target critic's
parameters equal the online critic's parameters. -/
theorem C10_targets_equal_online_after_init (a0 at0 c0 ct0 : List α) :
    (agentInit a0 at0 c0 ct0).actor_target = (agentInit a0 at0 c0 ct0).actor ∧
    (agentInit a0 at0 c0 ct0).critic_target = (agentInit a0 at0 c0 ct0).critic :=
  ⟨rfl, rfl⟩

/-- Claim C4: `polyak_update_target` sets every target parameter to
`p * target + (1 - p) * source`; consequently for `p = 1` the targets are
unchanged and for `p = 0` the targets equal the online parameters. -/
theorem C4_polyak_convex (ps : AgentParams α)
    (h1 : ps.actor_target.length = ps.actor.length)
    (h2 : ps.critic_target.length = ps.critic.length) :
    (∀ (p : α) (i : ℕ),
      (i < (polyakUpdateTarget p ps).actor_target.length →
        (polyakUpdateTarget p ps).actor_target.getD i 0
          = p * ps.actor_target.getD i 0 + (1 - p) * ps.actor.getD i 0) ∧
      (i < (polyakUpdateTarget p ps).critic_target.length →
        (polyakUpdateTarget p ps).critic_target.getD i 0
          = p * ps.critic_target.getD i 0 + (1 - p) * ps.critic.getD i 0)) ∧
    ((polyakUpdateTarget (1 : α) ps).actor_target = ps.actor_target ∧
      (polyakUpdateTarget (1 : α) ps).critic_target = ps.critic_target) ∧
    ((polyakUpdateTarget (0 : α) ps).actor_target = ps.actor ∧
      (polyakUpdateTarget (0 : α) ps).critic_target = ps.critic) := by
  refine ⟨fun p i => ⟨fun h => ?_, fun h => ?_⟩, ⟨?_, ?_⟩, ⟨?_, ?_⟩⟩
  · exact polyakVec_getD p ps.actor_target ps.actor i h
  · exact polyakVec_getD p ps.critic_target ps.critic i h
  · exact polyakVec_one ps.actor_target ps.actor h1
  · exact polyakVec_one ps.critic_target ps.critic h2
  · exact polyakVec_zero ps.actor_target ps.actor h1
  · exact polyakVec_zero ps.critic_target ps.critic h2

theorem C4_witness :
    psQ.actor_target.length = psQ.actor.length ∧
    psQ.critic_target.length = psQ.critic.length ∧
    ((polyakUpdateTarget (1 : ℚ) psQ).actor_target = psQ.actor_target ∧
      (polyakUpdateTarget (1 : ℚ) psQ).critic_target = psQ.critic_target) :=
  ⟨by decide, by decide, (C4_polyak_convex psQ (by decide) (by decide)).2.1⟩

/-- Claim C6: the target networks' parameters are mutated only by
`polyak_update_target`: in each `learn` iteration the optimizer steps rewrite
only the online actor and critic parameters, and each target parameter vector
is either left unchanged (off-delay iterations) or replaced by the Polyak
average of the old target and the freshly stepped online network. -/
theorem C6_targets_only_polyak (pd : ℕ) (p : α) (ops : LearnOps α) (i : ℕ)
    (st : LearnState α) :
    (learnIter pd p ops i st).params.critic = ops.criticStep i st.params ∧
    (learnIter pd p ops i st).params.actor =
      (if i % pd = 0 then
        ops.actorStep i { st.params with critic := ops.criticStep i st.params }
      else st.params.actor) ∧
    (learnIter pd p ops i st).params.actor_target =
      (if i % pd = 0 then
        polyakVec p st.params.actor_target
          (ops.actorStep i { st.params with critic := ops.criticStep i st.params })
      else st.params.actor_target) ∧
    (learnIter pd p ops i st).params.critic_target =
      (if i % pd = 0 then
        polyakVec p st.params.critic_target (ops.criticStep i st.params)
      else st.params.critic_target) := by
  by_cases h : i % pd = 0 <;> simp [learnIter, polyakUpdateTarget, h]

/-- Claim C3: `learn` with `T = 4`, `policy_delay = 2` performs exactly 2 actor
updates, 2 target (Polyak) updates and 4 critic updates; in general the
actor/target update runs exactly on the inner iterations `i` with
`i % policy_delay == 0`. -/
theorem C3_policy_delay_schedule (pd : ℕ) (p : α) (ops : LearnOps α)
    (st : LearnState α) (hpd : 0 < pd) :
    (∀ T : ℕ,
      (learn pd p ops T st).list_critic_loss.length = st.list_critic_loss.length + T ∧
      (learn pd p ops T st).list_actor_loss.length
        = st.list_actor_loss.length + ((List.range T).filter (fun i => i % pd = 0)).length ∧
      (learn pd p ops T st).target_update_calls
        = st.target_update_calls + ((List.range T).filter (fun i => i % pd = 0)).length) ∧
    (∀ (i : ℕ) (st2 : LearnState α),
      (learnIter pd p ops i st2).list_actor_loss.length = st2.list_actor_loss.length + 1
        ↔ i % pd = 0) ∧
    ((learn 2 p ops 4 st).list_actor_loss.length = st.list_actor_loss.length + 2 ∧
      (learn 2 p ops 4 st).target_update_calls = st.target_update_calls + 2 ∧
      (learn 2 p ops 4 st).list_critic_loss.length = st.list_critic_loss.length + 4) := by
  refine ⟨fun T => ?_, fun i st2 => ?_, ?_⟩
  · obtain ⟨hc, ha, ht⟩ := learn_foldl_counts pd p ops (List.range T) st
    exact ⟨by simpa [learn] using hc, by simpa [learn] using ha, by simpa [learn] using ht⟩
  · obtain ⟨-, ha0, -⟩ := learnIter_counts pd p ops i st2
    by_cases h : i % pd = 0 <;> simp [h] at ha0 ⊢ <;> omega
  · obtain ⟨hc, ha, ht⟩ := learn_foldl_counts 2 p ops (List.range 4) st
    have h4 : ((List.range 4).filter (fun i => i % 2 = 0)).length = 2 := by decide
    refine ⟨?_, ?_, ?_⟩
    · simpa [learn, h4] using ha
    · simpa [learn, h4] using ht
    · simpa [learn] using hc

theorem C3_witness :
    0 < 1 ∧
    ((learn 1 (1 : ℚ) trivialOpsQ 2 stQ).list_critic_loss.length
        = stQ.list_critic_loss.length + 2 ∧
      (learn 1 (1 : ℚ) trivialOpsQ 2 stQ).list_actor_loss.length
        = stQ.list_actor_loss.length + ((List.range 2).filter (fun i => i % 1 = 0)).length ∧
      (learn 1 (1 : ℚ) trivialOpsQ 2 stQ).target_update_calls
        = stQ.target_update_calls + ((List.range 2).filter (fun i => i % 1 = 0)).length) :=
  ⟨by decide, (C3_policy_delay_schedule 1 1 trivialOpsQ stQ (by decide)).1 2⟩

/-- Claim C1: every action returned by `choose_action` (train mode: tanh
output plus exploration noise, clipped to the action-space bounds; eval mode:
the scaled tanh squashing alone) and every next-action computed inside
`learn` (target-actor output plus clipped smoothing noise, clamped) lies
within `[-max_action, max_action]` elementwise. -/
theorem C1_action_bounds (p : ActorParams ℝ) (low high : List ℝ) (mode : String)
    (eps obs : List ℝ) (hma : 0 ≤ p.max_action)
    (hhigh : ∀ a ∈ high, a = p.max_action)
    (hlow : low = high.map (fun a => -a)) :
    (∀ kv ∈ chooseAction Real.tanh p low high mode eps obs,
      ∀ a ∈ kv.2, -p.max_action ≤ a ∧ a ≤ p.max_action) ∧
    (∀ (pt : ActorParams ℝ) (c : ℝ) (next_obs epsb : List (List ℝ)),
      ∀ v ∈ learnNextActions Real.tanh pt c p.max_action next_obs epsb,
      ∀ a ∈ v, -p.max_action ≤ a ∧ a ≤ p.max_action) := by
  have hnm : -p.max_action ≤ p.max_action := by linarith
  have hlowall : ∀ b ∈ low, b = -p.max_action := by
    intro b hb
    rw [hlow] at hb
    obtain ⟨b2, hb2, rfl⟩ := List.mem_map.mp hb
    rw [hhigh b2 hb2]
  constructor
  · intro kv hkv a ha
    simp only [chooseAction, List.mem_singleton] at hkv
    subst hkv
    by_cases hm : mode = "train"
    · rw [if_pos hm] at ha
      exact clipVec_mem_bounds hnm _ low high hlowall hhigh a ha
    · rw [if_neg hm] at ha
      exact actorForward_mem_bounds hma obs a ha
  · intro pt c next_obs epsb v hv a ha
    simp only [learnNextActions, List.mem_map] at hv
    obtain ⟨w, hw, rfl⟩ := hv
    exact clampVec_mem_bounds hnm w a ha

theorem C1_witness :
    (0 ≤ actorPc.max_action) ∧ (∀ a ∈ [(2 : ℝ)], a = actorPc.max_action) ∧
    ([(-2 : ℝ)] = [(2 : ℝ)].map (fun a => -a)) ∧
    (∀ kv ∈ chooseAction Real.tanh actorPc [(-2 : ℝ)] [(2 : ℝ)] "train" [0] [1],
      ∀ a ∈ kv.2, -actorPc.max_action ≤ a ∧ a ≤ actorPc.max_action) :=
  ⟨by norm_num [actorPc], by simp [actorPc], by norm_num,
    (C1_action_bounds actorPc [(-2 : ℝ)] [(2 : ℝ)] "train" [0] [1]
      (by norm_num [actorPc]) (by simp [actorPc]) (by norm_num)).1⟩

/-- Claim C9: `Actor` construction succeeds exactly when the action space is
symmetric and uniformly bounded (all upper bounds equal, lower bounds the
negated upper bounds), in which case `max_action` is the common upper bound;
otherwise the assertions abort construction. -/
theorem C9_actor_init_check [DecidableEq α] (low high : List α)
    (hne : high ≠ []) (hlen : low.length = high.length) :
    actorMaxAction low high =
      if (∀ a ∈ high, a = high.headD 0) ∧ low = high.map (fun a => -a) then
        some (high.headD 0)
      else none := by
  by_cases hcond : (∀ a ∈ high, a = high.headD 0) ∧ low = high.map (fun a => -a)
  · rw [if_pos hcond]
    obtain ⟨hall, hmap⟩ := hcond
    have hlne : low ≠ [] := by
      rw [hmap]
      simpa using hne
    have hlowall : ∀ a ∈ low, a = -(high.headD 0) := by
      intro a ha
      rw [hmap] at ha
      obtain ⟨b, hb, rfl⟩ := List.mem_map.mp ha
      rw [hall b hb]
    have hlhead : low.headD 0 = -(high.headD 0) := hlowall _ (headD_mem hlne)
    have d1 : high.dedup.length = 1 := (dedup_length_one_iff hne).mpr hall
    have d2 : low.dedup.length = 1 := (dedup_length_one_iff hlne).mpr
      (by intro a ha; rw [hlowall a ha, hlhead])
    have d3 : -low.headD 0 = high.headD 0 := by rw [hlhead, neg_neg]
    simp only [actorMaxAction, d1, d2, d3, if_pos, if_true]
  · rw [if_neg hcond]
    unfold actorMaxAction
    split_ifs with d1 d2 d3
    · exfalso
      apply hcond
      have hall : ∀ a ∈ high, a = high.headD 0 := (dedup_length_one_iff hne).mp d1
      have hlne : low ≠ [] := by
        intro h0
        rw [h0] at hlen
        exact hne (List.length_eq_zero.mp hlen.symm)
      have hlall : ∀ a ∈ low, a = low.headD 0 := (dedup_length_one_iff hlne).mp d2
      have hlh : low.headD 0 = -(high.headD 0) := by linarith [d3]
      refine ⟨hall, ?_⟩
      have hl : low = List.replicate low.length (-(high.headD 0)) := by
        rw [← hlh]
        exact List.eq_replicate_of_mem hlall
      have hh : high = List.replicate high.length (high.headD 0) :=
        List.eq_replicate_of_mem hall
      calc low = List.replicate low.length (-(high.headD 0)) := hl
        _ = List.replicate high.length (-(high.headD 0)) := by rw [hlen]
        _ = (List.replicate high.length (high.headD 0)).map (fun a => -a) := by
              rw [List.map_replicate]
        _ = high.map (fun a => -a) := by rw [← hh]
    · rfl
    · rfl
    · rfl

theorem C9_witness :
    ([(2 : ℚ), 2] ≠ []) ∧ ([(-2 : ℚ), -2].length = [(2 : ℚ), 2].length) ∧
    actorMaxAction [(-2 : ℚ), -2] [(2 : ℚ), 2] =
      (if (∀ a ∈ [(2 : ℚ), 2], a = [(2 : ℚ), 2].headD 0) ∧
          [(-2 : ℚ), -2] = [(2 : ℚ), 2].map (fun a => -a) then
        some ([(2 : ℚ), 2].headD 0)
      else none) :=
  ⟨by decide, by decide, C9_actor_init_check [(-2 : ℚ), -2] [(2 : ℚ), 2] (by decide) (by decide)⟩

/-- Claim C2: in every inner iteration of `Agent.learn`, the regression target
computed by the no-grad block equals, sample by sample, the spec's formula
`target = reward + gamma * continuation_mask * min(Q1_target, Q2_target)`
evaluated at the next-observation and the target-actor output plus clipped
smoothing noise, clamped to `[-max_action, max_action]`. -/
theorem C2_learn_targets_match_spec (th : α → α) (pt : ActorParams α)
    (ct : CriticParams α) (gamma c ma : α) :
    ∀ (next_obs eps rewards masks : List (List α)),
      learnTargets th pt ct gamma c ma next_obs eps rewards masks
        = specTargets th pt ct gamma c ma next_obs eps rewards masks := by
  intro next_obs
  induction next_obs with
  | nil =>
      intro eps rewards masks
      cases eps <;> cases rewards <;> cases masks <;> rfl
  | cons ob obs ih =>
      intro eps rewards masks
      cases eps with
      | nil => cases rewards <;> cases masks <;> rfl
      | cons e es =>
        cases rewards with
        | nil => cases masks <;> rfl
        | cons r rs =>
          cases masks with
          | nil => rfl
          | cons m ms =>
              rw [learnTargets_cons, ih es rs ms]
              rfl

/-- Claim C5: the episode runner stops after `T` steps, or earlier as soon as
every parallel environment instance has been marked completed, whichever comes
first; in particular with `T = 5` and a single instance reporting done at step
3, the rollout stops at step 3 and the trajectory has 3 steps, not 5. -/
theorem C5_runner_step_budget (script : ℕ → List Bool) (f : ℕ → ℕ) (T n : ℕ) :
    ((∀ i, i < T →
        ¬((accCompletes script (List.replicate n false) 0 i).all (fun b => b) = true)) →
      (episodeRunner (scriptedEnv script) (keyedAgent f) T n).map
          (fun D => D.actions.length) = some T) ∧
    (∀ k, k < T →
      (∀ i, i < k →
        ¬((accCompletes script (List.replicate n false) 0 i).all (fun b => b) = true)) →
      ((accCompletes script (List.replicate n false) 0 k).all (fun b => b) = true) →
      (episodeRunner (scriptedEnv script) (keyedAgent f) T n).map
          (fun D => D.actions.length) = some (k + 1)) ∧
    (episodeRunner (scriptedEnv doneAt3) (keyedAgent (fun o => o)) 5 1).map
        (fun D => D.actions.length) = some 3 := by
  refine ⟨fun h => ?_, fun k hk h1 h2 => ?_, by decide⟩
  · obtain ⟨D2, hgo, hlen⟩ := go_scripted_full script f T 0 0
      { observations := [0], actions := [], rewards := [], dones := [],
        infos := [], batch_infos := [], completes := List.replicate n false } h
    have he : episodeRunner (scriptedEnv script) (keyedAgent f) T n
        = episodeRunnerGo (scriptedEnv script) (keyedAgent f) T 0 0
          { observations := [0], actions := [], rewards := [], dones := [],
            infos := [], batch_infos := [], completes := List.replicate n false } := rfl
    rw [he, hgo]
    simpa using hlen
  · obtain ⟨D2, hgo, hlen⟩ := go_scripted_stop script f k T 0 0
      { observations := [0], actions := [], rewards := [], dones := [],
        infos := [], batch_infos := [], completes := List.replicate n false } hk h1 h2
    have he : episodeRunner (scriptedEnv script) (keyedAgent f) T n
        = episodeRunnerGo (scriptedEnv script) (keyedAgent f) T 0 0
          { observations := [0], actions := [], rewards := [], dones := [],
            infos := [], batch_infos := [], completes := List.replicate n false } := rfl
    rw [he, hgo]
    simpa using hlen

theorem C5_witness :
    (∀ i, i < 2 →
      ¬((accCompletes (fun _ => [false]) (List.replicate 1 false) 0 i).all
          (fun b => b) = true)) ∧
    (episodeRunner (scriptedEnv (fun _ => [false])) (keyedAgent (fun o => o)) 2 1).map
        (fun D => D.actions.length) = some 2 :=
  ⟨by decide,
    (C5_runner_step_budget (fun _ => [false]) (fun o => o) 2 1).1 (by decide)⟩

/-- Claim C7 (amended): in every step of a rollout the runner pops the entry
under key `action` from the agent's output dictionary and steps the
environment with exactly that action — the recorded actions are the agent's
choices on the recorded observations and consecutive observations follow the
environment's step function; but the TD3 `Agent.choose_action` stores its
action under key `raw_action`, so the runner driving the TD3 agent aborts with
a missing-key failure on the first step instead of succeeding. -/
theorem C7_runner_pops_action_key :
    (∀ {Obs Act R2 : Type} (o0 : Obs) (stepF : Obs → Act → Obs × R2 × List Bool)
      (f : Obs → Act) (T n : ℕ) (D2 : BatchEpisode Obs Act R2 Unit),
      episodeRunner (funEnv o0 stepF) (keyedAgent f) T n = some D2 →
        D2.actions = D2.observations.dropLast.map f ∧
        List.Chain' (fun a b => b = (stepF a (f a)).1) D2.observations ∧
        D2.observations.head? = some o0) ∧
    (∀ {σ R2 Info : Type} (env : EnvModel σ (List ℝ) (List ℝ) R2 Info)
      (p : ActorParams ℝ) (low high eps : List ℝ) (mode : String) (T n : ℕ),
      1 ≤ T →
      episodeRunner env (chooseAction Real.tanh p low high mode eps) T n = none) := by
  constructor
  · intro Obs Act R2 o0 stepF f T n D2 hD2
    have he : episodeRunner (funEnv o0 stepF) (keyedAgent f) T n
        = episodeRunnerGo (funEnv o0 stepF) (keyedAgent f) T o0 o0
          { observations := [o0], actions := [], rewards := [], dones := [],
            infos := [], batch_infos := [], completes := List.replicate n false } := rfl
    rw [he] at hD2
    exact go_funEnv_inv o0 stepF f T o0 _ [] rfl rfl (List.chain'_singleton o0) D2 hD2
  · intro σ R2 Info env p low high eps mode T n hT
    obtain ⟨m, rfl⟩ : ∃ m, T = m + 1 := ⟨T - 1, by omega⟩
    rfl

theorem C7_witness :
    (episodeRunner (funEnv 0 stepFc) (keyedAgent (fun o => o)) 2 1 = some Dc7) ∧
    (Dc7.actions = Dc7.observations.dropLast.map (fun o => o) ∧
      List.Chain' (fun a b => b = (stepFc a a).1) Dc7.observations ∧
      Dc7.observations.head? = some 0) ∧
    (1 ≤ 2) ∧
    episodeRunner cEnvR
      (chooseAction Real.tanh actorPc [(-2 : ℝ)] [(2 : ℝ)] "train" [0]) 2 1 = none :=
  ⟨rfl,
    C7_runner_pops_action_key.1 0 stepFc (fun o => o) 2 1 Dc7 rfl,
    by decide,
    C7_runner_pops_action_key.2 cEnvR actorPc [(-2 : ℝ)] [(2 : ℝ)] [0] "train" 2 1
      (by decide)⟩

/-- Claim C7, as stated, is false: the runner pops key `action` from the
agent's output dictionary, but the TD3 agent's `choose_action` returns its
action under key `raw_action`, so the interaction fails (the rollout yields no
trajectory) at a concrete environment and agent configuration. -/
theorem C7_counterexample :
    episodeRunner cEnvR
      (chooseAction Real.tanh actorPc [(-2 : ℝ)] [(2 : ℝ)] "train" [0]) 1 1 = none := rfl

end Claims

end Lagom
